import Mathlib

/-!
Shallow embedding of the queue-system ticket store (src/src/App.tsx).

The store is a `List Ticket`; the lifecycle operations (`createTicket`,
`callNext`, `markDone`, `markSkipped`, `bumpPriority`, `resetAll`) are pure
functions on the store, transliterated from the React state-update code.
JavaScript numbers used as millisecond timestamps are modelled as `Int`;
the estimated-minutes form input (a JS number that can be `NaN`) is
modelled as `Option ℚ` with `none` standing for a non-finite value;
`Math.round` / `Math.floor` are modelled on `ℚ`.  `crypto.randomUUID()` is
modelled by an `id : Nat` parameter; the reachability relation requires the
id of a created ticket to be fresh, which models UUID uniqueness.
-/

namespace QueueSystem

inductive Priority where
  | low
  | medium
  | high
deriving DecidableEq, Repr

inductive Status where
  | waiting
  | in_progress
  | done
  | skipped
deriving DecidableEq, Repr

structure Ticket where
  id : Nat
  number : String
  name : String
  desc : String
  priority : Priority
  etaMinutes : Int
  status : Status
  createdAt : Int
  startedAt : Option Int
  doneAt : Option Int
  result : Option String
deriving DecidableEq, Repr

/-- `priorityRank`: high ↦ 3, medium ↦ 2, low ↦ 1. -/
def priorityRank (p : Priority) : Int :=
  match p with
  | .high => 3
  | .medium => 2
  | .low => 1

/-- `String(n).padStart(3, '0')`. -/
def pad3 (n : Int) : String :=
  let s := toString n
  if s.length < 3 then String.mk (List.replicate (3 - s.length) '0') ++ s else s

/-- `Math.round` on a finite JS number: round half toward positive infinity. -/
def jsRound (q : ℚ) : Int :=
  (q + 1 / 2).floor

/-- `minutesBetween(a, b) = Math.max(0, Math.round((b - a) / 60000))`. -/
def minutesBetween (a b : Int) : Int :=
  max 0 (jsRound (((b - a : Int) : ℚ) / 60000))

/-- JS `String.prototype.trim`: strip leading and trailing whitespace
(modelled with `Char.isWhitespace`, which covers the ASCII whitespace JS
strips). -/
def jsTrim (s : String) : String :=
  String.mk
    (((s.toList.dropWhile Char.isWhitespace).reverse.dropWhile
        Char.isWhitespace).reverse)

/-- Numeric value of the maximal decimal-digit run at the head, if any. -/
def digitsVal (cs : List Char) : Option Nat :=
  let ds := cs.takeWhile Char.isDigit
  if ds.isEmpty then none
  else some (ds.foldl (fun acc c => acc * 10 + (c.toNat - 48)) 0)

/-- `Number.parseInt(s, 10)`: skip leading whitespace, optional sign, maximal
digit run; `none` models `NaN`. -/
def jsParseInt (s : String) : Option Int :=
  match s.toList.dropWhile Char.isWhitespace with
  | '-' :: rest => (digitsVal rest).map (fun n => -(n : Int))
  | '+' :: rest => (digitsVal rest).map (fun n => (n : Int))
  | cs => (digitsVal cs).map (fun n => (n : Int))

/-- The sort comparator of `sortWaitingQueue`:
`pr = priorityRank(y) - priorityRank(x); if (pr !== 0) return pr; return x.createdAt - y.createdAt`. -/
def waitCmp (x y : Ticket) : Int :=
  if priorityRank y.priority - priorityRank x.priority ≠ 0 then
    priorityRank y.priority - priorityRank x.priority
  else x.createdAt - y.createdAt

/-- `x` may come no later than `y` under the comparator (comparator value ≤ 0). -/
def waitLE (x y : Ticket) : Bool :=
  decide (waitCmp x y ≤ 0)

/-- `sortWaitingQueue`: filter to `status === 'waiting'`, then stable-sort by
the comparator (ES2019+ `Array.prototype.sort` is stable; `List.mergeSort` is
the stable sort). -/
def sortWaitingQueue (tickets : List Ticket) : List Ticket :=
  (tickets.filter (fun t => decide (t.status = Status.waiting))).mergeSort waitLE

/-- `tickets.find((t) => t.status === 'in_progress') ?? null`. -/
def inProgressOf (tickets : List Ticket) : Option Ticket :=
  tickets.find? (fun t => decide (t.status = Status.in_progress))

/-- The `reduce` in `nextNumber`: fold `max` over the parsed numeric values
of all ticket numbers (ignoring `NaN`), accumulator starting at 0. -/
def maxNumVal (tickets : List Ticket) : Int :=
  tickets.foldl
    (fun acc t =>
      match jsParseInt t.number with
      | some n => max acc n
      | none => acc) 0

/-- `nextNumber = pad3(max + 1)`. -/
def nextNumber (tickets : List Ticket) : String :=
  pad3 (maxNumVal tickets + 1)

/-- The `eta` normalization in `createTicket`:
`Number.isFinite(applyEta) ? Math.max(1, Math.floor(applyEta)) : 15`. -/
def normEta (applyEta : Option ℚ) : Int :=
  match applyEta with
  | some q => max 1 q.floor
  | none => 15

/-- `createTicket`: trim name/desc, normalize eta, reject when either trimmed
field is empty, otherwise append a fresh waiting ticket carrying
`nextNumber` of the current store. -/
def createTicket (applyName applyDesc : String) (applyPriority : Priority)
    (applyEta : Option ℚ) (id : Nat) (now : Int) (tickets : List Ticket) :
    List Ticket :=
  let name := jsTrim applyName
  let desc := jsTrim applyDesc
  let eta := normEta applyEta
  if name = "" ∨ desc = "" then tickets
  else
    tickets ++ [{ id := id, number := nextNumber tickets, name := name,
                  desc := desc, priority := applyPriority, etaMinutes := eta,
                  status := Status.waiting, createdAt := now,
                  startedAt := none, doneAt := none, result := none }]

/-- `callNext`: no-op when a ticket is in progress or the waiting queue is
empty; otherwise the head of the waiting queue becomes `in_progress` with
`startedAt = now`. -/
def callNext (now : Int) (tickets : List Ticket) : List Ticket :=
  match inProgressOf tickets with
  | some _ => tickets
  | none =>
    match sortWaitingQueue tickets with
    | [] => tickets
    | next :: _ =>
      tickets.map (fun t =>
        if t.id = next.id then
          { t with status := Status.in_progress, startedAt := some now }
        else t)

/-- `markDone`: no-op without an in-progress ticket; otherwise that ticket
becomes `done` with `doneAt = now` and `result` the trimmed draft. -/
def markDone (draft : String) (now : Int) (tickets : List Ticket) :
    List Ticket :=
  match inProgressOf tickets with
  | none => tickets
  | some ip =>
    tickets.map (fun t =>
      if t.id = ip.id then
        { t with status := Status.done, doneAt := some now,
                 result := some (jsTrim draft) }
      else t)

/-- `markSkipped`: no-op without an in-progress ticket; otherwise that ticket
becomes `skipped`. -/
def markSkipped (tickets : List Ticket) : List Ticket :=
  match inProgressOf tickets with
  | none => tickets
  | some ip =>
    tickets.map (fun t =>
      if t.id = ip.id then { t with status := Status.skipped } else t)

/-- The one-step priority advance in `bumpPriority`. -/
def bumpStep (p : Priority) : Priority :=
  match p with
  | .low => .medium
  | .medium => .high
  | .high => .high

/-- `bumpPriority(id)`: advance the priority of every ticket whose id matches. -/
def bumpPriority (id : Nat) (tickets : List Ticket) : List Ticket :=
  tickets.map (fun t =>
    if t.id ≠ id then t else { t with priority := bumpStep t.priority })

/-- `resetAll`: clear the store. -/
def resetAll (_tickets : List Ticket) : List Ticket := []

/-- The ordering the spec describes for the waiting queue: priority rank
descending, ties broken by `createdAt` ascending (earlier first). -/
def waitSpecLE (x y : Ticket) : Prop :=
  priorityRank y.priority < priorityRank x.priority ∨
    (priorityRank x.priority = priorityRank y.priority ∧
      x.createdAt ≤ y.createdAt)

/-- Ticket A of the spec example: medium priority, createdAt = 1. -/
def ticketA : Ticket :=
  { id := 0, number := "001", name := "A", desc := "a",
    priority := Priority.medium, etaMinutes := 15, status := Status.waiting,
    createdAt := 1, startedAt := none, doneAt := none, result := none }

/-- Ticket B of the spec example: high priority, createdAt = 2. -/
def ticketB : Ticket :=
  { id := 1, number := "002", name := "B", desc := "b",
    priority := Priority.high, etaMinutes := 15, status := Status.waiting,
    createdAt := 2, startedAt := none, doneAt := none, result := none }

/-- Ticket C of the spec example: high priority, createdAt = 0. -/
def ticketC : Ticket :=
  { id := 2, number := "003", name := "C", desc := "c",
    priority := Priority.high, etaMinutes := 15, status := Status.waiting,
    createdAt := 0, startedAt := none, doneAt := none, result := none }

/-- A concrete in-progress ticket, used in closed witnesses. -/
def ticketInProgress : Ticket :=
  { id := 5, number := "005", name := "E", desc := "e",
    priority := Priority.medium, etaMinutes := 15,
    status := Status.in_progress, createdAt := 10, startedAt := some 50,
    doneAt := none, result := none }

/-- A concrete low-priority ticket in the terminal `done` state, used in
closed counterexamples and witnesses. -/
def ticketDoneLow : Ticket :=
  { id := 7, number := "004", name := "D", desc := "d",
    priority := Priority.low, etaMinutes := 15, status := Status.done,
    createdAt := 0, startedAt := some 1, doneAt := some 2,
    result := some "r" }

/-- `todayDone`: tickets whose `doneAt` is set and falls on the same local
calendar day as `now`.  `isSameLocalDay` (local-timezone calendar
comparison) is abstracted as the parameter `sameDay`. -/
def todayDone (sameDay : Int → Int → Bool) (now : Int)
    (tickets : List Ticket) : List Ticket :=
  tickets.filter (fun x =>
    match x.doneAt with
    | some d => sameDay d now
    | none => false)

/-- `avgTodayWaitMinutes`: rows are tickets whose `startedAt` falls on the
same local day as `now`; 0 when empty, else
`Math.round(sum of minutesBetween(createdAt, startedAt) / rows.length)`. -/
def avgTodayWaitMinutes (sameDay : Int → Int → Bool) (now : Int)
    (tickets : List Ticket) : Int :=
  let rows := tickets.filter (fun x =>
    match x.startedAt with
    | some st => sameDay st now
    | none => false)
  if rows.length = 0 then 0
  else
    let sum : Int := rows.foldl
      (fun acc x => acc + minutesBetween x.createdAt (x.startedAt.getD 0)) 0
    jsRound ((sum : ℚ) / (rows.length : ℚ))

/-- `avgTodayHandleMinutes`: rows are tickets with `startedAt` and `doneAt`
set whose `doneAt` falls on the same local day as `now`; 0 when empty, else
`Math.round(sum of minutesBetween(startedAt, doneAt) / rows.length)`. -/
def avgTodayHandleMinutes (sameDay : Int → Int → Bool) (now : Int)
    (tickets : List Ticket) : Int :=
  let rows := tickets.filter (fun x =>
    x.startedAt.isSome &&
      match x.doneAt with
      | some d => sameDay d now
      | none => false)
  if rows.length = 0 then 0
  else
    let sum : Int := rows.foldl
      (fun acc x =>
        acc + minutesBetween (x.startedAt.getD 0) (x.doneAt.getD 0)) 0
    jsRound ((sum : ℚ) / (rows.length : ℚ))

/-- Written from the claim text of C8: the count of tickets completed on the
given day. -/
def specCompletedCount (sameDay : Int → Int → Bool) (now : Int)
    (tickets : List Ticket) : Nat :=
  (tickets.filter (fun x =>
    match x.doneAt with
    | some d => sameDay d now
    | none => false)).length

/-- Written from the claim text of C8: the average of the minutes from
`createdAt` to `startedAt` over tickets started that day, rounded to the
nearest integer minute, 0 when no qualifying rows exist. -/
def specAvgWaitMinutes (sameDay : Int → Int → Bool) (now : Int)
    (tickets : List Ticket) : Int :=
  let rows := tickets.filter (fun x =>
    match x.startedAt with
    | some st => sameDay st now
    | none => false)
  if rows = [] then 0
  else
    jsRound
      (((rows.map
            (fun x => minutesBetween x.createdAt (x.startedAt.getD 0))).sum :
          ℚ) / (rows.length : ℚ))

/-- Written from the claim text of C8: the average of the minutes from
`startedAt` to `doneAt` over tickets completed that day, rounded to the
nearest integer minute, 0 when no qualifying rows exist. -/
def specAvgHandleMinutes (sameDay : Int → Int → Bool) (now : Int)
    (tickets : List Ticket) : Int :=
  let rows := tickets.filter (fun x =>
    match x.doneAt with
    | some d => sameDay d now
    | none => false)
  if rows = [] then 0
  else
    jsRound
      (((rows.map
            (fun x => minutesBetween (x.startedAt.getD 0) (x.doneAt.getD 0))).sum :
          ℚ) / (rows.length : ℚ))

/-- One user-triggered operation on the store.  The `create` step carries a
freshness hypothesis for the new id, modelling the uniqueness of
`crypto.randomUUID()`. -/
inductive Step : List Ticket → List Ticket → Prop where
  | createOp (n d : String) (p : Priority) (e : Option ℚ) (id : Nat)
      (now : Int) (s : List Ticket) (hfresh : ∀ t ∈ s, t.id ≠ id) :
      Step s (createTicket n d p e id now s)
  | callNextOp (now : Int) (s : List Ticket) : Step s (callNext now s)
  | completeOp (draft : String) (now : Int) (s : List Ticket) :
      Step s (markDone draft now s)
  | skipOp (s : List Ticket) : Step s (markSkipped s)
  | bumpOp (id : Nat) (s : List Ticket) : Step s (bumpPriority id s)
  | resetOp (s : List Ticket) : Step s (resetAll s)

/-- Stores reachable from the empty store by the six operations. -/
inductive Reachable : List Ticket → Prop where
  | nil : Reachable []
  | step {s s' : List Ticket} : Reachable s → Step s s' → Reachable s'

/-- An operation other than `resetAll`. -/
inductive StepNoReset : List Ticket → List Ticket → Prop where
  | createOp (n d : String) (p : Priority) (e : Option ℚ) (id : Nat)
      (now : Int) (s : List Ticket) (hfresh : ∀ t ∈ s, t.id ≠ id) :
      StepNoReset s (createTicket n d p e id now s)
  | callNextOp (now : Int) (s : List Ticket) : StepNoReset s (callNext now s)
  | completeOp (draft : String) (now : Int) (s : List Ticket) :
      StepNoReset s (markDone draft now s)
  | skipOp (s : List Ticket) : StepNoReset s (markSkipped s)
  | bumpOp (id : Nat) (s : List Ticket) : StepNoReset s (bumpPriority id s)

/-- Stores reachable from the empty store without any reset. -/
inductive ReachableNoReset : List Ticket → Prop where
  | nil : ReachableNoReset []
  | step {s s' : List Ticket} :
      ReachableNoReset s → StepNoReset s s' → ReachableNoReset s'

/-- The parsed number value of `x` is strictly below that of `y` (vacuous
when either fails to parse; on reachable stores every number parses). -/
def numLt (x y : Ticket) : Prop :=
  ∀ nx ny : Int, jsParseInt x.number = some nx →
    jsParseInt y.number = some ny → nx < ny

/-- The inductive store invariant: distinct ids, at most one in-progress
ticket, in-progress tickets carry `startedAt`, completed tickets carry
`startedAt`. -/
def StoreInv (s : List Ticket) : Prop :=
  (s.map Ticket.id).Nodup ∧
    s.countP (fun t => decide (t.status = Status.in_progress)) ≤ 1 ∧
    (∀ t ∈ s, t.status = Status.in_progress → t.startedAt.isSome) ∧
    ∀ t ∈ s, t.doneAt.isSome → t.startedAt.isSome

lemma waitLE_iff (x y : Ticket) : waitLE x y = true ↔ waitSpecLE x y := by
  unfold waitLE waitCmp waitSpecLE
  by_cases h : priorityRank y.priority - priorityRank x.priority = 0 <;>
    simp [h] <;> omega

lemma waitLE_total (x y : Ticket) : waitLE x y || waitLE y x := by
  rw [Bool.or_eq_true, waitLE_iff, waitLE_iff]
  unfold waitSpecLE
  omega

lemma waitLE_trans (x y z : Ticket) :
    waitLE x y → waitLE y z → waitLE x z := by
  rw [waitLE_iff, waitLE_iff, waitLE_iff]
  unfold waitSpecLE
  omega

lemma sortWaitingQueue_perm (s : List Ticket) :
    (sortWaitingQueue s).Perm
      (s.filter (fun t => decide (t.status = Status.waiting))) :=
  List.mergeSort_perm _ _

lemma mem_sortWaitingQueue {t : Ticket} {s : List Ticket} :
    t ∈ sortWaitingQueue s ↔ t ∈ s ∧ t.status = Status.waiting := by
  unfold sortWaitingQueue
  simp [List.mem_filter]

lemma sortWaitingQueue_pairwise (s : List Ticket) :
    (sortWaitingQueue s).Pairwise waitSpecLE := by
  have h := List.sorted_mergeSort
    (fun a b c => waitLE_trans a b c) waitLE_total
    (s.filter (fun t => decide (t.status = Status.waiting)))
  exact (h.imp (fun hab => (waitLE_iff _ _).mp hab))

lemma sortWaitingQueue_stable {x y : Ticket} {s : List Ticket}
    (hxy : waitSpecLE x y)
    (hsub : [x, y].Sublist
      (s.filter (fun t => decide (t.status = Status.waiting)))) :
    [x, y].Sublist (sortWaitingQueue s) :=
  List.pair_sublist_mergeSort (fun a b c => waitLE_trans a b c) waitLE_total
    ((waitLE_iff x y).mpr hxy) hsub

end QueueSystem

namespace QueueSystem

/-- C2: the waiting-queue projection consists exactly of the `waiting`
tickets (a permutation of the filter), is ordered by priority rank
descending with ties broken by `createdAt` ascending, is stable (any pair
already in spec order in the store keeps that order), and on the spec's
example A(medium, t=1), B(high, t=2), C(high, t=0) it yields [C, B, A]. -/
theorem C2_waiting_queue_ordering :
    (∀ s : List Ticket,
        (sortWaitingQueue s).Perm
            (s.filter (fun t => decide (t.status = Status.waiting))) ∧
          (sortWaitingQueue s).Pairwise waitSpecLE ∧
          (∀ x y : Ticket, waitSpecLE x y →
            [x, y].Sublist
              (s.filter (fun t => decide (t.status = Status.waiting))) →
            [x, y].Sublist (sortWaitingQueue s))) ∧
      sortWaitingQueue [ticketA, ticketB, ticketC] =
        [ticketC, ticketB, ticketA] := by
  constructor
  · intro s
    exact ⟨sortWaitingQueue_perm s, sortWaitingQueue_pairwise s,
      fun x y hxy hsub => sortWaitingQueue_stable hxy hsub⟩
  · simp [sortWaitingQueue, List.mergeSort, ticketA, ticketB, ticketC,
      waitLE, waitCmp, priorityRank]

lemma inProgressOf_eq_none_iff {s : List Ticket} :
    inProgressOf s = none ↔ ∀ t ∈ s, t.status ≠ Status.in_progress := by
  unfold inProgressOf
  simp [List.find?_eq_none]

lemma inProgressOf_mem {s : List Ticket} {ip : Ticket}
    (h : inProgressOf s = some ip) : ip ∈ s :=
  List.mem_of_find?_eq_some h

lemma inProgressOf_status {s : List Ticket} {ip : Ticket}
    (h : inProgressOf s = some ip) : ip.status = Status.in_progress := by
  have := List.find?_some h
  simpa using this

lemma ids_ne_of_nodup {l1 l2 : List Ticket} {x : Ticket}
    (hnd : (((l1 ++ x :: l2)).map Ticket.id).Nodup) :
    (∀ t ∈ l1, t.id ≠ x.id) ∧ ∀ t ∈ l2, t.id ≠ x.id := by
  have hnd' : ((l1.map Ticket.id) ++ x.id :: (l2.map Ticket.id)).Nodup := by
    simpa using hnd
  have hdis := List.disjoint_of_nodup_append hnd'
  have hright := hnd'.of_append_right
  constructor
  · intro t ht heq
    exact hdis (List.mem_map_of_mem Ticket.id ht) (by simp [heq])
  · intro t ht heq
    have hx := (List.nodup_cons.mp hright).1
    exact hx (by simpa [heq] using List.mem_map_of_mem Ticket.id ht)

/-- Mapping an id-guarded update over a store with distinct ids rewrites
exactly the occurrence of `x` and nothing else. -/
lemma map_guard_decomp (s : List Ticket) (x : Ticket) (g : Ticket → Ticket)
    (hnd : (s.map Ticket.id).Nodup) (hx : x ∈ s) :
    ∃ l1 l2, s = l1 ++ x :: l2 ∧
      s.map (fun t => if t.id = x.id then g t else t) = l1 ++ g x :: l2 := by
  obtain ⟨l1, l2, rfl⟩ := List.append_of_mem hx
  obtain ⟨h1, h2⟩ := ids_ne_of_nodup hnd
  refine ⟨l1, l2, rfl, ?_⟩
  rw [List.map_append, List.map_cons, if_pos rfl]
  congr 1
  · rw [List.map_congr_left fun t ht => if_neg (h1 t ht)]
    simp
  · congr 1
    rw [List.map_congr_left fun t ht => if_neg (h2 t ht)]
    simp

lemma map_guard_id (s : List Ticket) (k : Nat) (g : Ticket → Ticket)
    (h : ∀ t ∈ s, t.id ≠ k) :
    s.map (fun t => if t.id = k then g t else t) = s := by
  rw [List.map_congr_left fun t ht => if_neg (h t ht)]
  simp

end QueueSystem

namespace QueueSystem

/-- C3: with no in-progress ticket and a non-empty waiting queue, `callNext`
changes exactly the head of the waiting-queue ordering to `in_progress`
with `startedAt = now` (every other ticket and the array order unchanged);
when an in-progress ticket exists or the waiting queue is empty it is a
no-op. Ids are distinct in actual stores (`crypto.randomUUID`). -/
theorem C3_call_next (now : Int) (s : List Ticket) :
    (∀ next rest, (s.map Ticket.id).Nodup → inProgressOf s = none →
        sortWaitingQueue s = next :: rest →
        ∃ l1 l2, s = l1 ++ next :: l2 ∧
          callNext now s = l1 ++
            ({ next with
                status := Status.in_progress,
                startedAt := some now }) :: l2) ∧
      (inProgressOf s ≠ none → callNext now s = s) ∧
      (sortWaitingQueue s = [] → callNext now s = s) := by
  refine ⟨?_, ?_, ?_⟩
  · intro next rest hnd hnone hsort
    have hmem : next ∈ s := by
      have : next ∈ sortWaitingQueue s := by rw [hsort]; exact List.mem_cons_self _ _
      exact (mem_sortWaitingQueue.mp this).1
    obtain ⟨l1, l2, hdec, hmap⟩ := map_guard_decomp s next
      (fun t => { t with status := Status.in_progress, startedAt := some now })
      hnd hmem
    refine ⟨l1, l2, hdec, ?_⟩
    rw [callNext, hnone, hsort]
    exact hmap
  · intro hne
    rw [callNext]
    cases h : inProgressOf s with
    | none => exact absurd h hne
    | some ip => rfl
  · intro hsort
    rw [callNext, hsort]
    cases h : inProgressOf s <;> rfl

/-- Closed instances of C3 at concrete stores: the transition case on a
one-element waiting store, and both no-op cases. -/
theorem C3_call_next_witness :
    (∃ l1 l2, [ticketA] = l1 ++ ticketA :: l2 ∧
        callNext 500 [ticketA] = l1 ++
          ({ ticketA with
              status := Status.in_progress,
              startedAt := some 500 }) :: l2) ∧
      callNext 500 [({ ticketA with status := Status.in_progress } : Ticket)] =
        [({ ticketA with status := Status.in_progress } : Ticket)] ∧
      callNext 500 ([] : List Ticket) = [] := by
  refine ⟨?_, ?_, ?_⟩
  · exact (C3_call_next 500 [ticketA]).1 ticketA []
      (by simp [ticketA]) (by simp [inProgressOf, ticketA])
      (by simp [sortWaitingQueue, List.mergeSort, ticketA])
  · exact (C3_call_next 500 _).2.1 (by simp [inProgressOf, ticketA])
  · exact (C3_call_next 500 []).2.2 (by simp [sortWaitingQueue])

end QueueSystem

namespace QueueSystem

lemma bumpPriority_eq_guard (k : Nat) (s : List Ticket) :
    bumpPriority k s =
      s.map (fun t =>
        if t.id = k then { t with priority := bumpStep t.priority } else t) := by
  unfold bumpPriority
  apply List.map_congr_left
  intro t _
  by_cases h : t.id = k <;> simp [h]

lemma callNext_decomp (now : Int) (s : List Ticket)
    (hnd : (s.map Ticket.id).Nodup) :
    callNext now s = s ∨
      ∃ l1 x y l2, s = l1 ++ x :: l2 ∧ callNext now s = l1 ++ y :: l2 := by
  rw [callNext]
  cases hip : inProgressOf s with
  | some ip => exact Or.inl rfl
  | none =>
    cases hq : sortWaitingQueue s with
    | nil => exact Or.inl rfl
    | cons next rest =>
      have hmem : next ∈ s := by
        have : next ∈ sortWaitingQueue s := by
          rw [hq]; exact List.mem_cons_self _ _
        exact (mem_sortWaitingQueue.mp this).1
      obtain ⟨l1, l2, hdec, hmap⟩ := map_guard_decomp s next
        (fun t => { t with status := Status.in_progress,
                           startedAt := some now }) hnd hmem
      exact Or.inr ⟨l1, next, _, l2, hdec, hmap⟩

lemma markDone_decomp (draft : String) (now : Int) (s : List Ticket)
    (hnd : (s.map Ticket.id).Nodup) :
    markDone draft now s = s ∨
      ∃ l1 x y l2, s = l1 ++ x :: l2 ∧ markDone draft now s = l1 ++ y :: l2 := by
  rw [markDone]
  cases hip : inProgressOf s with
  | none => exact Or.inl rfl
  | some ip =>
    obtain ⟨l1, l2, hdec, hmap⟩ := map_guard_decomp s ip
      (fun t => { t with status := Status.done, doneAt := some now,
                         result := some (jsTrim draft) }) hnd
      (inProgressOf_mem hip)
    exact Or.inr ⟨l1, ip, _, l2, hdec, hmap⟩

lemma markSkipped_decomp (s : List Ticket)
    (hnd : (s.map Ticket.id).Nodup) :
    markSkipped s = s ∨
      ∃ l1 x y l2, s = l1 ++ x :: l2 ∧ markSkipped s = l1 ++ y :: l2 := by
  rw [markSkipped]
  cases hip : inProgressOf s with
  | none => exact Or.inl rfl
  | some ip =>
    obtain ⟨l1, l2, hdec, hmap⟩ := map_guard_decomp s ip
      (fun t => { t with status := Status.skipped }) hnd
      (inProgressOf_mem hip)
    exact Or.inr ⟨l1, ip, _, l2, hdec, hmap⟩

lemma bumpPriority_decomp (k : Nat) (s : List Ticket)
    (hnd : (s.map Ticket.id).Nodup) :
    bumpPriority k s = s ∨
      ∃ l1 x y l2, s = l1 ++ x :: l2 ∧ bumpPriority k s = l1 ++ y :: l2 := by
  rw [bumpPriority_eq_guard]
  by_cases hex : ∃ x ∈ s, x.id = k
  · obtain ⟨x, hx, hxk⟩ := hex
    subst hxk
    obtain ⟨l1, l2, hdec, hmap⟩ := map_guard_decomp s x
      (fun t => { t with priority := bumpStep t.priority }) hnd hx
    exact Or.inr ⟨l1, x, _, l2, hdec, hmap⟩
  · push_neg at hex
    exact Or.inl (map_guard_id s k _ hex)

lemma createTicket_cases (n d : String) (p : Priority) (e : Option ℚ)
    (i : Nat) (now : Int) (s : List Ticket) :
    createTicket n d p e i now s = s ∨
      ∃ tn, createTicket n d p e i now s = s ++ [tn] := by
  by_cases h : jsTrim n = "" ∨ jsTrim d = ""
  · left
    simp only [createTicket]
    rw [if_pos h]
  · right
    exact ⟨{ id := i, number := nextNumber s, name := jsTrim n,
             desc := jsTrim d, priority := p, etaMinutes := normEta e,
             status := Status.waiting, createdAt := now, startedAt := none,
             doneAt := none, result := none },
      by simp only [createTicket]; rw [if_neg h]⟩

/-- C9: each of `callNext`, `markDone`, `markSkipped` and `bumpPriority`
either leaves the store unchanged or rewrites exactly one position of the
stored array, preserving every other record and the relative order;
`createTicket` either leaves the store unchanged or appends one new ticket
at the end.  Ids are distinct in actual stores (`crypto.randomUUID`). -/
theorem C9_frame_effects (s : List Ticket)
    (hnd : (s.map Ticket.id).Nodup) :
    (∀ now, callNext now s = s ∨
        ∃ l1 x y l2, s = l1 ++ x :: l2 ∧ callNext now s = l1 ++ y :: l2) ∧
      (∀ draft now, markDone draft now s = s ∨
        ∃ l1 x y l2, s = l1 ++ x :: l2 ∧
          markDone draft now s = l1 ++ y :: l2) ∧
      (markSkipped s = s ∨
        ∃ l1 x y l2, s = l1 ++ x :: l2 ∧ markSkipped s = l1 ++ y :: l2) ∧
      (∀ k, bumpPriority k s = s ∨
        ∃ l1 x y l2, s = l1 ++ x :: l2 ∧ bumpPriority k s = l1 ++ y :: l2) ∧
      ∀ n d p e i now, createTicket n d p e i now s = s ∨
        ∃ tn, createTicket n d p e i now s = s ++ [tn] :=
  ⟨fun now => callNext_decomp now s hnd,
   fun draft now => markDone_decomp draft now s hnd,
   markSkipped_decomp s hnd,
   fun k => bumpPriority_decomp k s hnd,
   fun n d p e i now => createTicket_cases n d p e i now s⟩

/-- Closed instance of C9 on a concrete two-ticket store. -/
theorem C9_frame_effects_witness :
    (callNext 500 [ticketA, ticketDoneLow] = [ticketA, ticketDoneLow] ∨
        ∃ l1 x y l2, [ticketA, ticketDoneLow] = l1 ++ x :: l2 ∧
          callNext 500 [ticketA, ticketDoneLow] = l1 ++ y :: l2) ∧
      (bumpPriority 7 [ticketA, ticketDoneLow] = [ticketA, ticketDoneLow] ∨
        ∃ l1 x y l2, [ticketA, ticketDoneLow] = l1 ++ x :: l2 ∧
          bumpPriority 7 [ticketA, ticketDoneLow] = l1 ++ y :: l2) ∧
      ∀ e, createTicket "x" "y" Priority.low e 9 600 [ticketA, ticketDoneLow] =
          [ticketA, ticketDoneLow] ∨
        ∃ tn, createTicket "x" "y" Priority.low e 9 600
            [ticketA, ticketDoneLow] = [ticketA, ticketDoneLow] ++ [tn] := by
  have h := C9_frame_effects [ticketA, ticketDoneLow]
    (by simp [ticketA, ticketDoneLow])
  exact ⟨h.1 500, h.2.2.2.1 7,
    fun e => h.2.2.2.2 "x" "y" Priority.low e 9 600⟩

end QueueSystem

namespace QueueSystem

lemma mem_map_guard_of_id_ne {s : List Ticket} {t x : Ticket}
    (g : Ticket → Ticket) (ht : t ∈ s) (hne : t.id ≠ x.id) :
    t ∈ s.map (fun u => if u.id = x.id then g u else u) :=
  List.mem_map.mpr ⟨t, ht, by rw [if_neg hne]⟩

lemma ne_id_of_status_ne {s : List Ticket} {t x : Ticket}
    (hnd : (s.map Ticket.id).Nodup) (ht : t ∈ s) (hx : x ∈ s)
    (hst : t.status ≠ x.status) : t.id ≠ x.id :=
  fun h =>
    hst (congrArg Ticket.status (List.inj_on_of_nodup_map hnd ht hx h))

lemma status_ne_of_terminal {t : Ticket}
    (hterm : t.status = Status.done ∨ t.status = Status.skipped)
    {st : Status} (hst : st = Status.waiting ∨ st = Status.in_progress) :
    t.status ≠ st := by
  rcases hterm with h | h <;> rcases hst with h2 | h2 <;> simp [h, h2]

lemma nonterminal_mem_callNext (now : Int) {s : List Ticket} {t : Ticket}
    (hnd : (s.map Ticket.id).Nodup) (ht : t ∈ s)
    (hterm : t.status = Status.done ∨ t.status = Status.skipped) :
    t ∈ callNext now s := by
  rw [callNext]
  cases hip : inProgressOf s with
  | some ip => exact ht
  | none =>
    cases hq : sortWaitingQueue s with
    | nil => exact ht
    | cons next rest =>
      have hnext : next ∈ s ∧ next.status = Status.waiting :=
        mem_sortWaitingQueue.mp (by rw [hq]; exact List.mem_cons_self _ _)
      exact mem_map_guard_of_id_ne _ ht
        (ne_id_of_status_ne hnd ht hnext.1
          (by rw [hnext.2]; exact status_ne_of_terminal hterm (Or.inl rfl)))

lemma terminal_mem_markDone (draft : String) (now : Int) {s : List Ticket}
    {t : Ticket} (hnd : (s.map Ticket.id).Nodup) (ht : t ∈ s)
    (hterm : t.status = Status.done ∨ t.status = Status.skipped) :
    t ∈ markDone draft now s := by
  rw [markDone]
  cases hip : inProgressOf s with
  | none => exact ht
  | some ip =>
    exact mem_map_guard_of_id_ne _ ht
      (ne_id_of_status_ne hnd ht (inProgressOf_mem hip)
        (by rw [inProgressOf_status hip]
            exact status_ne_of_terminal hterm (Or.inr rfl)))

lemma terminal_mem_markSkipped {s : List Ticket} {t : Ticket}
    (hnd : (s.map Ticket.id).Nodup) (ht : t ∈ s)
    (hterm : t.status = Status.done ∨ t.status = Status.skipped) :
    t ∈ markSkipped s := by
  rw [markSkipped]
  cases hip : inProgressOf s with
  | none => exact ht
  | some ip =>
    exact mem_map_guard_of_id_ne _ ht
      (ne_id_of_status_ne hnd ht (inProgressOf_mem hip)
        (by rw [inProgressOf_status hip]
            exact status_ne_of_terminal hterm (Or.inr rfl)))

lemma mem_createTicket (n d : String) (p : Priority) (e : Option ℚ)
    (i : Nat) (now : Int) {s : List Ticket} {t : Ticket} (ht : t ∈ s) :
    t ∈ createTicket n d p e i now s := by
  rcases createTicket_cases n d p e i now s with h | ⟨tn, h⟩
  · rw [h]; exact ht
  · rw [h]; exact List.mem_append_left _ ht

lemma bump_preserves_all_but_priority (k : Nat) {s : List Ticket}
    {t : Ticket} (ht : t ∈ s) :
    ∃ t2 ∈ bumpPriority k s, t2.id = t.id ∧ t2.number = t.number ∧
      t2.name = t.name ∧ t2.desc = t.desc ∧
      t2.etaMinutes = t.etaMinutes ∧ t2.status = t.status ∧
      t2.createdAt = t.createdAt ∧ t2.startedAt = t.startedAt ∧
      t2.doneAt = t.doneAt ∧ t2.result = t.result := by
  unfold bumpPriority
  refine ⟨_, List.mem_map_of_mem
    (fun u => if u.id ≠ k then u
      else { u with priority := bumpStep u.priority }) ht, ?_⟩
  by_cases h : t.id ≠ k <;> simp [h]

/-- C6 (amended): once a ticket is terminal (`done` or `skipped`), the
operations `call-next`, `complete`, `skip` and `create` leave its record
entirely unchanged in the store; `bump-priority`, however, can still
advance the `priority` field of a terminal ticket, while preserving every
other field — in particular its status, so no transition ever leads out of
`done`/`skipped`. -/
theorem C6_terminal_tickets (s : List Ticket)
    (hnd : (s.map Ticket.id).Nodup) (t : Ticket) (ht : t ∈ s)
    (hterm : t.status = Status.done ∨ t.status = Status.skipped) :
    (∀ now, t ∈ callNext now s) ∧
      (∀ draft now, t ∈ markDone draft now s) ∧
      t ∈ markSkipped s ∧
      (∀ n d p e i now, t ∈ createTicket n d p e i now s) ∧
      ∀ k, ∃ t2 ∈ bumpPriority k s, t2.id = t.id ∧ t2.number = t.number ∧
        t2.name = t.name ∧ t2.desc = t.desc ∧
        t2.etaMinutes = t.etaMinutes ∧ t2.status = t.status ∧
        t2.createdAt = t.createdAt ∧ t2.startedAt = t.startedAt ∧
        t2.doneAt = t.doneAt ∧ t2.result = t.result :=
  ⟨fun now => nonterminal_mem_callNext now hnd ht hterm,
   fun draft now => terminal_mem_markDone draft now hnd ht hterm,
   terminal_mem_markSkipped hnd ht hterm,
   fun n d p e i now => mem_createTicket n d p e i now ht,
   fun k => bump_preserves_all_but_priority k ht⟩

/-- Closed instance of C6 (amended) on a concrete store holding a waiting
ticket and a done ticket. -/
theorem C6_terminal_tickets_witness :
    ticketDoneLow ∈ callNext 500 [ticketA, ticketDoneLow] ∧
      ticketDoneLow ∈ markDone "ok" 600 [ticketA, ticketDoneLow] ∧
      ∃ t2 ∈ bumpPriority 7 [ticketA, ticketDoneLow],
        t2.status = ticketDoneLow.status ∧
          t2.doneAt = ticketDoneLow.doneAt ∧
          t2.result = ticketDoneLow.result := by
  have h := C6_terminal_tickets [ticketA, ticketDoneLow]
    (by simp [ticketA, ticketDoneLow]) ticketDoneLow
    (by simp) (Or.inl (by simp [ticketDoneLow]))
  refine ⟨h.1 500, h.2.1 "ok" 600, ?_⟩
  obtain ⟨t2, hmem, hid, _, _, _, _, hst, _, _, hdone, hres⟩ := h.2.2.2.2 7
  exact ⟨t2, hmem, hst, hdone, hres⟩

/-- C6 as stated is false: `bump-priority` on a terminal ticket still
changes its `priority` field.  On the store holding only the done,
low-priority ticket `ticketDoneLow`, `bumpPriority` rewrites the priority
to medium. -/
theorem C6_counterexample :
    ticketDoneLow.status = Status.done ∧
      ticketDoneLow.priority = Priority.low ∧
      (bumpPriority 7 [ticketDoneLow]).map Ticket.priority =
        [Priority.medium] := by decide

end QueueSystem

namespace QueueSystem

/-- C7 (amended): with an in-progress ticket, `complete` transitions exactly
that ticket to `done`, sets `doneAt = now` and sets `result` to the
supplied text trimmed of surrounding whitespace (possibly empty), leaving
every other record and the order unchanged; with no in-progress ticket it
is a no-op; and a `done` ticket is never modified again by any non-reset
operation (in particular `doneAt`/`result` are set exactly once, so a
ticket can never carry two completions). -/
theorem C7_complete (draft : String) (now : Int) (s : List Ticket) :
    (∀ ip, (s.map Ticket.id).Nodup → inProgressOf s = some ip →
        ip.status = Status.in_progress ∧
          ∃ l1 l2, s = l1 ++ ip :: l2 ∧
            markDone draft now s = l1 ++
              ({ ip with
                  status := Status.done,
                  doneAt := some now,
                  result := some (jsTrim draft) }) :: l2) ∧
      (inProgressOf s = none → markDone draft now s = s) ∧
      ∀ t ∈ s, (s.map Ticket.id).Nodup → t.status = Status.done →
        (∀ now2, t ∈ callNext now2 s) ∧
          (∀ d2 n2, t ∈ markDone d2 n2 s) ∧
          t ∈ markSkipped s ∧
          (∀ n d p e i nw, t ∈ createTicket n d p e i nw s) ∧
          ∀ k, ∃ t2 ∈ bumpPriority k s, t2.status = Status.done ∧
            t2.doneAt = t.doneAt ∧ t2.result = t.result := by
  refine ⟨?_, ?_, ?_⟩
  · intro ip hnd hip
    refine ⟨inProgressOf_status hip, ?_⟩
    obtain ⟨l1, l2, hdec, hmap⟩ := map_guard_decomp s ip
      (fun t => { t with status := Status.done, doneAt := some now,
                         result := some (jsTrim draft) }) hnd
      (inProgressOf_mem hip)
    refine ⟨l1, l2, hdec, ?_⟩
    rw [markDone, hip]
    exact hmap
  · intro hnone
    rw [markDone, hnone]
  · intro t ht hnd hdone
    refine ⟨fun now2 => nonterminal_mem_callNext now2 hnd ht (Or.inl hdone),
      fun d2 n2 => terminal_mem_markDone d2 n2 hnd ht (Or.inl hdone),
      terminal_mem_markSkipped hnd ht (Or.inl hdone),
      fun n d p e i nw => mem_createTicket n d p e i nw ht, fun k => ?_⟩
    obtain ⟨t2, hmem, hid, _, _, _, _, hst, _, _, hdoneAt, hres⟩ :=
      bump_preserves_all_but_priority k ht
    exact ⟨t2, hmem, by rw [hst, hdone], hdoneAt, hres⟩

/-- Closed instance of C7 (amended): completing the concrete in-progress
ticket with draft "ok" on a two-ticket store, and the no-op case on a store
with no in-progress ticket. -/
theorem C7_complete_witness :
    (ticketInProgress.status = Status.in_progress ∧
        ∃ l1 l2, [ticketA, ticketInProgress] = l1 ++ ticketInProgress :: l2 ∧
          markDone "ok" 99 [ticketA, ticketInProgress] = l1 ++
            ({ ticketInProgress with
                status := Status.done,
                doneAt := some 99,
                result := some (jsTrim "ok") }) :: l2) ∧
      markDone "ok" 99 [ticketA] = [ticketA] := by
  constructor
  · exact (C7_complete "ok" 99 [ticketA, ticketInProgress]).1 ticketInProgress
      (by simp [ticketA, ticketInProgress])
      (by simp [inProgressOf, ticketA, ticketInProgress])
  · exact (C7_complete "ok" 99 [ticketA]).2.1
      (by simp [inProgressOf, ticketA])

/-- C7 as stated is false in one detail: `complete` stores the supplied
text trimmed, not verbatim.  Completing with the draft " ok " stores
result "ok". -/
theorem C7_counterexample :
    markDone " ok " 99 [ticketInProgress] =
      [({ ticketInProgress with
          status := Status.done,
          doneAt := some 99,
          result := some "ok" } : Ticket)] ∧
      ("ok" : String) ≠ " ok " := by decide

end QueueSystem

namespace QueueSystem

lemma countP_ids_le_one {s : List Ticket}
    (hnd : (s.map Ticket.id).Nodup) (k : Nat) :
    s.countP (fun t => decide (t.id = k)) ≤ 1 := by
  induction s with
  | nil => simp
  | cons hd tl ih =>
    rw [List.map_cons, List.nodup_cons] at hnd
    rw [List.countP_cons]
    by_cases hk : hd.id = k
    · have hz : tl.countP (fun t => decide (t.id = k)) = 0 := by
        rw [List.countP_eq_zero]
        intro t ht
        simp only [decide_eq_true_eq]
        intro heq
        exact hnd.1 (by rw [hk, ← heq]; exact List.mem_map_of_mem Ticket.id ht)
      simp [hz, hk]
    · simp only [hk, decide_eq_true_eq]
      simpa using ih hnd.2

lemma nodup_ids_map {s : List Ticket} (f : Ticket → Ticket)
    (hf : ∀ t, (f t).id = t.id) (hnd : (s.map Ticket.id).Nodup) :
    ((s.map f).map Ticket.id).Nodup := by
  rw [List.map_map]
  have he : (Ticket.id ∘ f) = Ticket.id := funext fun t => hf t
  rw [he]
  exact hnd

lemma storeInv_nil : StoreInv [] := by
  refine ⟨by simp, by simp, by simp, by simp⟩

lemma storeInv_createTicket (n d : String) (p : Priority) (e : Option ℚ)
    (i : Nat) (now : Int) (s : List Ticket)
    (hfresh : ∀ t ∈ s, t.id ≠ i) (h : StoreInv s) :
    StoreInv (createTicket n d p e i now s) := by
  obtain ⟨hnd, hcnt, hip, hdone⟩ := h
  by_cases hg : jsTrim n = "" ∨ jsTrim d = ""
  · have : createTicket n d p e i now s = s := by
      simp only [createTicket]
      rw [if_pos hg]
    rw [this]
    exact ⟨hnd, hcnt, hip, hdone⟩
  · have hct : createTicket n d p e i now s = s ++
        [{ id := i, number := nextNumber s, name := jsTrim n,
           desc := jsTrim d, priority := p, etaMinutes := normEta e,
           status := Status.waiting, createdAt := now, startedAt := none,
           doneAt := none, result := none }] := by
      simp only [createTicket]
      rw [if_neg hg]
    rw [hct]
    refine ⟨?_, ?_, ?_, ?_⟩
    · rw [List.map_append, List.nodup_append]
      refine ⟨hnd, by simp, ?_⟩
      intro a ha hb
      simp only [List.map_cons, List.map_nil, List.mem_cons,
        List.not_mem_nil, or_false] at hb
      obtain ⟨t, ht, hti⟩ := List.mem_map.mp ha
      exact hfresh t ht (by rw [hti, hb])
    · rw [List.countP_append]
      simpa using hcnt
    · intro t ht
      rcases List.mem_append.mp ht with h1 | h1
      · exact hip t h1
      · simp only [List.mem_cons, List.not_mem_nil, or_false] at h1
        rw [h1]
        intro hcontra
        simp at hcontra
    · intro t ht
      rcases List.mem_append.mp ht with h1 | h1
      · exact hdone t h1
      · simp only [List.mem_cons, List.not_mem_nil, or_false] at h1
        rw [h1]
        intro hcontra
        simp at hcontra

lemma storeInv_callNext (now : Int) (s : List Ticket) (h : StoreInv s) :
    StoreInv (callNext now s) := by
  obtain ⟨hnd, hcnt, hip, hdone⟩ := h
  rw [callNext]
  cases hq : inProgressOf s with
  | some ip => exact ⟨hnd, hcnt, hip, hdone⟩
  | none =>
    cases hw : sortWaitingQueue s with
    | nil => exact ⟨hnd, hcnt, hip, hdone⟩
    | cons next rest =>
      have hnone := inProgressOf_eq_none_iff.mp hq
      set f : Ticket → Ticket := fun t =>
        if t.id = next.id then
          { t with status := Status.in_progress, startedAt := some now }
        else t with hf
      have hfid : ∀ t, (f t).id = t.id := by
        intro t
        by_cases hc : t.id = next.id <;> simp [hf, hc]
      refine ⟨nodup_ids_map f hfid hnd, ?_, ?_, ?_⟩
      · rw [List.countP_map]
        have : s.countP (fun t => decide ((f t).status = Status.in_progress))
            = s.countP (fun t => decide (t.id = next.id)) := by
          apply List.countP_congr
          intro t ht
          by_cases hc : t.id = next.id
          · simp [hf, hc]
          · simp [hf, hc, hnone t ht]
        rw [Function.comp_def, this]
        exact countP_ids_le_one hnd next.id
      · intro u hu
        obtain ⟨t, ht, rfl⟩ := List.mem_map.mp hu
        by_cases hc : t.id = next.id
        · simp [hf, hc]
        · simp only [hf, hc, if_false]
          intro hcontra
          exact absurd hcontra (hnone t ht)
      · intro u hu
        obtain ⟨t, ht, rfl⟩ := List.mem_map.mp hu
        by_cases hc : t.id = next.id
        · simp [hf, hc]
        · simpa [hf, hc] using hdone t ht

lemma storeInv_markDone (draft : String) (now : Int) (s : List Ticket)
    (h : StoreInv s) : StoreInv (markDone draft now s) := by
  obtain ⟨hnd, hcnt, hip, hdone⟩ := h
  rw [markDone]
  cases hq : inProgressOf s with
  | none => exact ⟨hnd, hcnt, hip, hdone⟩
  | some ip =>
    have hipmem := inProgressOf_mem hq
    have hipst := inProgressOf_status hq
    set f : Ticket → Ticket := fun t =>
      if t.id = ip.id then
        { t with status := Status.done, doneAt := some now,
                 result := some (jsTrim draft) }
      else t with hf
    have hfid : ∀ t, (f t).id = t.id := by
      intro t
      by_cases hc : t.id = ip.id <;> simp [hf, hc]
    refine ⟨nodup_ids_map f hfid hnd, ?_, ?_, ?_⟩
    · rw [List.countP_map]
      refine le_trans (List.countP_mono_left ?_) hcnt
      intro t ht
      simp only [Function.comp_apply, decide_eq_true_eq]
      by_cases hc : t.id = ip.id
      · simp [hf, hc]
      · simp [hf, hc]
    · intro u hu
      obtain ⟨t, ht, rfl⟩ := List.mem_map.mp hu
      by_cases hc : t.id = ip.id
      · simp [hf, hc]
      · simpa [hf, hc] using hip t ht
    · intro u hu
      obtain ⟨t, ht, rfl⟩ := List.mem_map.mp hu
      by_cases hc : t.id = ip.id
      · have hteq : t = ip := List.inj_on_of_nodup_map hnd ht hipmem hc
        simp only [hf, hc, if_true]
        intro _
        simpa using hip t ht (by rw [hteq]; exact hipst)
      · simpa [hf, hc] using hdone t ht

lemma storeInv_markSkipped (s : List Ticket) (h : StoreInv s) :
    StoreInv (markSkipped s) := by
  obtain ⟨hnd, hcnt, hip, hdone⟩ := h
  rw [markSkipped]
  cases hq : inProgressOf s with
  | none => exact ⟨hnd, hcnt, hip, hdone⟩
  | some ip =>
    set f : Ticket → Ticket := fun t =>
      if t.id = ip.id then { t with status := Status.skipped } else t with hf
    have hfid : ∀ t, (f t).id = t.id := by
      intro t
      by_cases hc : t.id = ip.id <;> simp [hf, hc]
    refine ⟨nodup_ids_map f hfid hnd, ?_, ?_, ?_⟩
    · rw [List.countP_map]
      refine le_trans (List.countP_mono_left ?_) hcnt
      intro t ht
      simp only [Function.comp_apply, decide_eq_true_eq]
      by_cases hc : t.id = ip.id
      · simp [hf, hc]
      · simp [hf, hc]
    · intro u hu
      obtain ⟨t, ht, rfl⟩ := List.mem_map.mp hu
      by_cases hc : t.id = ip.id
      · simp [hf, hc]
      · simpa [hf, hc] using hip t ht
    · intro u hu
      obtain ⟨t, ht, rfl⟩ := List.mem_map.mp hu
      by_cases hc : t.id = ip.id
      · simpa [hf, hc] using hdone t ht
      · simpa [hf, hc] using hdone t ht

lemma storeInv_bumpPriority (k : Nat) (s : List Ticket) (h : StoreInv s) :
    StoreInv (bumpPriority k s) := by
  obtain ⟨hnd, hcnt, hip, hdone⟩ := h
  rw [bumpPriority_eq_guard]
  set f : Ticket → Ticket := fun t =>
    if t.id = k then { t with priority := bumpStep t.priority } else t with hf
  have hfid : ∀ t, (f t).id = t.id := by
    intro t
    by_cases hc : t.id = k <;> simp [hf, hc]
  refine ⟨nodup_ids_map f hfid hnd, ?_, ?_, ?_⟩
  · rw [List.countP_map]
    have : s.countP (fun t => decide ((f t).status = Status.in_progress))
        = s.countP (fun t => decide (t.status = Status.in_progress)) := by
      apply List.countP_congr
      intro t ht
      by_cases hc : t.id = k <;> simp [hf, hc]
    rw [Function.comp_def, this]
    exact hcnt
  · intro u hu
    obtain ⟨t, ht, rfl⟩ := List.mem_map.mp hu
    by_cases hc : t.id = k
    · simpa [hf, hc] using hip t ht
    · simpa [hf, hc] using hip t ht
  · intro u hu
    obtain ⟨t, ht, rfl⟩ := List.mem_map.mp hu
    by_cases hc : t.id = k
    · simpa [hf, hc] using hdone t ht
    · simpa [hf, hc] using hdone t ht

lemma storeInv_step {s s' : List Ticket} (hstep : Step s s')
    (h : StoreInv s) : StoreInv s' := by
  cases hstep with
  | createOp n d p e i now s hfresh =>
    exact storeInv_createTicket n d p e i now s hfresh h
  | callNextOp now s => exact storeInv_callNext now s h
  | completeOp draft now s => exact storeInv_markDone draft now s h
  | skipOp s => exact storeInv_markSkipped s h
  | bumpOp k s => exact storeInv_bumpPriority k s h
  | resetOp s => exact storeInv_nil

lemma reachable_storeInv {s : List Ticket} (h : Reachable s) : StoreInv s := by
  induction h with
  | nil => exact storeInv_nil
  | step _ hstep ih => exact storeInv_step hstep ih

end QueueSystem

namespace QueueSystem

/-- C1: in every store reachable from the empty store by any sequence of
create, call-next, complete, skip, bump-priority and reset, at most one
ticket has status `in_progress`. -/
theorem C1_at_most_one_in_progress (s : List Ticket) (h : Reachable s) :
    s.countP (fun t => decide (t.status = Status.in_progress)) ≤ 1 :=
  (reachable_storeInv h).2.1

/-- Closed instance of C1 on the store reached by one create followed by
one call-next. -/
theorem C1_at_most_one_in_progress_witness :
    (callNext 200 (createTicket "a" "b" Priority.medium none 3 100
        [])).countP (fun t => decide (t.status = Status.in_progress)) ≤ 1 :=
  C1_at_most_one_in_progress _
    (Reachable.step
      (Reachable.step Reachable.nil
        (Step.createOp "a" "b" Priority.medium none 3 100 [] (by simp)))
      (Step.callNextOp 200 _))

end QueueSystem

namespace QueueSystem

/-- C10: `create` normalizes its inputs before any check or store change:
name and description are trimmed (whitespace-only input is rejected as
empty, leaving the store unchanged) and the estimated-minutes input
becomes 15 when non-finite and is otherwise floored and clamped to at
least 1, so every stored ticket has a positive integer `etaMinutes`. -/
theorem C10_create_normalization :
    (∀ n d p e i now s, jsTrim n = "" ∨ jsTrim d = "" →
        createTicket n d p e i now s = s) ∧
      (∀ n d p e i now s, jsTrim n ≠ "" → jsTrim d ≠ "" →
        createTicket n d p e i now s = s ++
          [{ id := i, number := nextNumber s, name := jsTrim n,
             desc := jsTrim d, priority := p, etaMinutes := normEta e,
             status := Status.waiting, createdAt := now, startedAt := none,
             doneAt := none, result := none }]) ∧
      normEta none = 15 ∧
      (∀ q : ℚ, normEta (some q) = max 1 q.floor) ∧
      ∀ e, 1 ≤ normEta e := by
  refine ⟨?_, ?_, rfl, fun q => rfl, ?_⟩
  · intro n d p e i now s h
    simp only [createTicket]
    rw [if_pos h]
  · intro n d p e i now s hn hd
    simp only [createTicket]
    rw [if_neg (by simp [hn, hd])]
  · intro e
    cases e with
    | none => simp [normEta]
    | some q => exact le_max_left 1 q.floor

/-- Closed instance of C10: whitespace-only name is rejected; a padded
name/description is stored trimmed with a floored, clamped eta. -/
theorem C10_create_normalization_witness :
    createTicket "   " "x" Priority.low none 1 5 [] = [] ∧
      createTicket " a " " b " Priority.low (some (mkRat 7 2)) 1 5 [] =
        [] ++
          [{ id := 1, number := nextNumber [], name := jsTrim " a ",
             desc := jsTrim " b ", priority := Priority.low,
             etaMinutes := normEta (some (mkRat 7 2)),
             status := Status.waiting, createdAt := 5, startedAt := none,
             doneAt := none, result := none }] ∧
      1 ≤ normEta (some (mkRat 7 2)) := by
  refine ⟨?_, ?_, ?_⟩
  · exact C10_create_normalization.1 "   " "x" Priority.low none 1 5 []
      (Or.inl (by decide))
  · exact C10_create_normalization.2.1 " a " " b " Priority.low
      (some (mkRat 7 2)) 1 5 [] (by decide) (by decide)
  · exact C10_create_normalization.2.2.2.2 (some (mkRat 7 2))

lemma foldl_add_eq_sum_map (rows : List Ticket) (w : Ticket → Int) :
    rows.foldl (fun acc x => acc + w x) 0 = (rows.map w).sum := by
  rw [List.sum_eq_foldl, List.foldl_map]

/-- C8: for a given calendar day (the local-day comparison abstracted as
`sameDay`), the derived statistics equal the spec's description: the count
of tickets completed that day, the average minutes from `createdAt` to
`startedAt` over tickets started that day and the average minutes from
`startedAt` to `doneAt` over tickets completed that day, each average
rounded to the nearest integer minute and 0 when no qualifying rows exist.
The hypothesis (completed tickets have `startedAt` set) holds in every
reachable store by `reachable_storeInv`. -/
theorem C8_daily_stats (sameDay : Int → Int → Bool) (now : Int)
    (s : List Ticket)
    (hds : ∀ t ∈ s, t.doneAt.isSome → t.startedAt.isSome) :
    (todayDone sameDay now s).length = specCompletedCount sameDay now s ∧
      avgTodayWaitMinutes sameDay now s = specAvgWaitMinutes sameDay now s ∧
      avgTodayHandleMinutes sameDay now s =
        specAvgHandleMinutes sameDay now s := by
  refine ⟨rfl, ?_, ?_⟩
  · simp only [avgTodayWaitMinutes, specAvgWaitMinutes]
    rw [foldl_add_eq_sum_map]
    by_cases h : (s.filter (fun x =>
        match x.startedAt with
        | some st => sameDay st now
        | none => false)) = []
    · simp [h]
    · rw [if_neg h, if_neg (by simpa [List.length_eq_zero] using h)]
  · have hfil : (s.filter (fun x =>
        x.startedAt.isSome &&
          match x.doneAt with
          | some d => sameDay d now
          | none => false)) =
        (s.filter (fun x =>
          match x.doneAt with
          | some d => sameDay d now
          | none => false)) := by
      apply List.filter_congr
      intro x hx
      cases hdo : x.doneAt with
      | none => simp
      | some d => simp [hds x hx (by simp [hdo])]
    simp only [avgTodayHandleMinutes, specAvgHandleMinutes]
    rw [hfil, foldl_add_eq_sum_map]
    by_cases h : (s.filter (fun x =>
        match x.doneAt with
        | some d => sameDay d now
        | none => false)) = []
    · simp [h]
    · rw [if_neg h, if_neg (by simpa [List.length_eq_zero] using h)]

/-- Closed instance of C8 on a one-ticket store whose ticket was completed
on the queried day (with day-equality as the concrete `sameDay`). -/
theorem C8_daily_stats_witness :
    (todayDone (fun a b => decide (a = b)) 2 [ticketDoneLow]).length =
        specCompletedCount (fun a b => decide (a = b)) 2 [ticketDoneLow] ∧
      avgTodayWaitMinutes (fun a b => decide (a = b)) 2 [ticketDoneLow] =
        specAvgWaitMinutes (fun a b => decide (a = b)) 2 [ticketDoneLow] ∧
      avgTodayHandleMinutes (fun a b => decide (a = b)) 2 [ticketDoneLow] =
        specAvgHandleMinutes (fun a b => decide (a = b)) 2 [ticketDoneLow] :=
  C8_daily_stats (fun a b => decide (a = b)) 2 [ticketDoneLow]
    (by simp [ticketDoneLow])

end QueueSystem

namespace QueueSystem

lemma maxFold_ge_acc (s : List Ticket) :
    ∀ acc : Int, acc ≤ s.foldl
      (fun acc t =>
        match jsParseInt t.number with
        | some n => max acc n
        | none => acc) acc := by
  induction s with
  | nil => intro acc; simp
  | cons hd tl ih =>
    intro acc
    rw [List.foldl_cons]
    refine le_trans ?_ (ih _)
    cases jsParseInt hd.number with
    | none => simp
    | some n => simp [le_max_left]

lemma maxFold_ge_elem (s : List Ticket) :
    ∀ (acc : Int) (t : Ticket) (n : Int), t ∈ s →
      jsParseInt t.number = some n →
      n ≤ s.foldl
        (fun acc t =>
          match jsParseInt t.number with
          | some n => max acc n
          | none => acc) acc := by
  induction s with
  | nil => intro acc t n ht; exact absurd ht (List.not_mem_nil t)
  | cons hd tl ih =>
    intro acc t n ht hp
    rw [List.foldl_cons]
    rcases List.mem_cons.mp ht with rfl | hmem
    · rw [hp]
      refine le_trans (le_max_right acc n) (maxFold_ge_acc tl _)
    · exact ih _ t n hmem hp

lemma maxFold_attained (s : List Ticket) :
    ∀ acc : Int,
      s.foldl
        (fun acc t =>
          match jsParseInt t.number with
          | some n => max acc n
          | none => acc) acc = acc ∨
      ∃ t ∈ s, jsParseInt t.number = some
        (s.foldl
          (fun acc t =>
            match jsParseInt t.number with
            | some n => max acc n
            | none => acc) acc) := by
  induction s with
  | nil => intro acc; exact Or.inl rfl
  | cons hd tl ih =>
    intro acc
    rw [List.foldl_cons]
    rcases ih (match jsParseInt hd.number with
      | some n => max acc n
      | none => acc) with heq | ⟨t, hmem, hp⟩
    · rw [heq]
      cases hph : jsParseInt hd.number with
      | none => simp [hph]
      | some n =>
        simp only [hph]
        rcases le_total n acc with hle | hle
        · exact Or.inl (max_eq_left hle)
        · exact Or.inr ⟨hd, List.mem_cons_self _ _, by rw [hph, max_eq_right hle]⟩
    · exact Or.inr ⟨t, List.mem_cons_of_mem hd hmem, hp⟩

lemma maxNumVal_nonneg (s : List Ticket) : 0 ≤ maxNumVal s :=
  maxFold_ge_acc s 0

lemma maxNumVal_ge {s : List Ticket} {t : Ticket} {n : Int} (ht : t ∈ s)
    (hp : jsParseInt t.number = some n) : n ≤ maxNumVal s :=
  maxFold_ge_elem s 0 t n ht hp

lemma maxNumVal_attained (s : List Ticket) :
    maxNumVal s = 0 ∨ ∃ t ∈ s, jsParseInt t.number = some (maxNumVal s) :=
  maxFold_attained s 0

/-- C4: the next display number is `pad3` of one plus the maximum numeric
value among existing ticket numbers (0 when none parses; the fold's value
bounds every parsed number and is attained when non-zero); concretely,
creating in the empty store yields number "001", a second create yields
"002", and after `resetAll` a create yields "001" again. -/
theorem C4_next_number :
    (∀ s : List Ticket,
        nextNumber s = pad3 (maxNumVal s + 1) ∧
          0 ≤ maxNumVal s ∧
          (∀ t ∈ s, ∀ n : Int, jsParseInt t.number = some n →
            n ≤ maxNumVal s) ∧
          (maxNumVal s = 0 ∨
            ∃ t ∈ s, jsParseInt t.number = some (maxNumVal s))) ∧
      (createTicket "小王" "测试" Priority.medium (some 15) 0 100
          []).map Ticket.number = ["001"] ∧
      (createTicket "小王" "测试" Priority.medium (some 15) 1 200
          (createTicket "小王" "测试" Priority.medium (some 15) 0 100
            [])).map Ticket.number = ["001", "002"] ∧
      (createTicket "小王" "测试" Priority.medium (some 15) 2 400
          (resetAll
            (createTicket "小王" "测试" Priority.medium (some 15) 1 200
              (createTicket "小王" "测试" Priority.medium (some 15) 0 100
                [])))).map Ticket.number = ["001"] := by
  refine ⟨?_, ?_, ?_, ?_⟩
  · intro s
    exact ⟨rfl, maxNumVal_nonneg s,
      fun t ht n hp => maxNumVal_ge ht hp, maxNumVal_attained s⟩
  · with_unfolding_all decide
  · with_unfolding_all decide
  · with_unfolding_all decide

end QueueSystem

namespace QueueSystem

lemma digitChar_spec : ∀ r : Nat, r < 10 →
    (Nat.digitChar r).isDigit = true ∧ (Nat.digitChar r).toNat - 48 = r := by
  decide

lemma char_isDigit_not_whitespace (c : Char) (h : c.isDigit = true) :
    c.isWhitespace = false := by
  by_contra hw
  rw [Bool.not_eq_false] at hw
  simp only [Char.isWhitespace, Bool.or_eq_true, decide_eq_true_eq] at hw
  rcases hw with ((h1 | h1) | h1) | h1 <;> subst h1 <;> exact absurd h (by decide)

lemma toDigitsCore_spec :
    ∀ (fuel n : Nat) (ds : List Char), n < fuel →
      ∃ pre : List Char,
        Nat.toDigitsCore 10 fuel n ds = pre ++ ds ∧ pre ≠ [] ∧
        (∀ c ∈ pre, c.isDigit = true) ∧
        ∀ acc : Nat, pre.foldl (fun a c => a * 10 + (c.toNat - 48)) acc =
          acc * 10 ^ pre.length + n := by
  intro fuel
  induction fuel with
  | zero => intro n ds h; omega
  | succ f ih =>
    intro n ds h
    rw [Nat.toDigitsCore]
    by_cases hz : n / 10 = 0
    · simp only [hz, if_true]
      refine ⟨[Nat.digitChar (n % 10)], rfl, by simp, ?_, ?_⟩
      · intro c hc
        simp only [List.mem_singleton] at hc
        rw [hc]
        exact (digitChar_spec (n % 10) (Nat.mod_lt n (by decide))).1
      · intro acc
        have hn : n % 10 = n := by omega
        have hd := (digitChar_spec (n % 10) (Nat.mod_lt n (by decide))).2
        rw [hn] at hd
        simp only [List.foldl_cons, List.foldl_nil, List.length_singleton,
          pow_one, hd, hn]
    · simp only [hz, if_false]
      have hlt : n / 10 < f := by
        have hdl : n / 10 < n := Nat.div_lt_self (by omega) (by decide)
        omega
      obtain ⟨pre, h1, h2, h3, h4⟩ :=
        ih (n / 10) (Nat.digitChar (n % 10) :: ds) hlt
      refine ⟨pre ++ [Nat.digitChar (n % 10)], ?_, by simp, ?_, ?_⟩
      · rw [h1, List.append_assoc, List.singleton_append]
      · intro c hc
        rcases List.mem_append.mp hc with hm | hm
        · exact h3 c hm
        · simp only [List.mem_singleton] at hm
          rw [hm]
          exact (digitChar_spec (n % 10) (Nat.mod_lt n (by omega))).1
      · intro acc
        rw [List.foldl_append, h4 acc, List.foldl_cons, List.foldl_nil,
          List.length_append, List.length_singleton]
        have hd := (digitChar_spec (n % 10) (Nat.mod_lt n (by omega))).2
        rw [hd]
        have hpow : (10:Nat) ^ (pre.length + 1) = 10 ^ pre.length * 10 :=
          pow_succ 10 pre.length
        rw [hpow]
        have hnm : 10 * (n / 10) + n % 10 = n := Nat.div_add_mod n 10
        set X := acc * 10 ^ pre.length with hX
        have hq : acc * (10 ^ pre.length * 10) = X * 10 := by rw [hX]; ring
        rw [hq]
        omega

lemma toDigits_spec (n : Nat) :
    (∀ c ∈ Nat.toDigits 10 n, c.isDigit = true) ∧
      Nat.toDigits 10 n ≠ [] ∧
      (Nat.toDigits 10 n).foldl (fun a c => a * 10 + (c.toNat - 48)) 0 = n := by
  obtain ⟨pre, h1, h2, h3, h4⟩ := toDigitsCore_spec (n + 1) n [] (by omega)
  have he : Nat.toDigits 10 n = pre := by
    rw [Nat.toDigits, h1, List.append_nil]
  rw [he]
  refine ⟨h3, h2, ?_⟩
  have := h4 0
  simpa using this

lemma takeWhile_of_all (p : Char → Bool) :
    ∀ l : List Char, (∀ c ∈ l, p c = true) → l.takeWhile p = l := by
  intro l
  induction l with
  | nil => intro _; rfl
  | cons c rest ih =>
    intro h
    rw [List.takeWhile_cons, h c (List.mem_cons_self _ _)]
    simp only [if_true]
    rw [ih (fun x hx => h x (List.mem_cons_of_mem c hx))]

lemma foldDec_replicate_zero (k : Nat) :
    (List.replicate k '0').foldl (fun a c => a * 10 + (c.toNat - 48)) 0 = 0 := by
  induction k with
  | zero => rfl
  | succ m ih =>
    rw [List.replicate_succ, List.foldl_cons]
    have hz : (0 : Nat) * 10 + ('0'.toNat - 48) = 0 := by decide
    rw [hz]
    exact ih

lemma jsParseInt_all_digits (cs : List Char) (hne : cs ≠ [])
    (hdig : ∀ c ∈ cs, c.isDigit = true) :
    jsParseInt (String.mk cs) =
      some ((cs.foldl (fun a c => a * 10 + (c.toNat - 48)) 0 : Nat) : Int) := by
  cases cs with
  | nil => exact absurd rfl hne
  | cons c rest =>
    have hc := hdig c (List.mem_cons_self _ _)
    have hw := char_isDigit_not_whitespace c hc
    have hds : (String.mk (c :: rest)).toList.dropWhile Char.isWhitespace =
        c :: rest := by
      show (c :: rest).dropWhile Char.isWhitespace = c :: rest
      rw [List.dropWhile_cons, hw]
      simp
    unfold jsParseInt
    rw [hds]
    split
    · rename_i rest1 heq
      injection heq with hc1 _
      rw [hc1] at hc
      exact absurd hc (by decide)
    · rename_i rest1 heq
      injection heq with hc1 _
      rw [hc1] at hc
      exact absurd hc (by decide)
    · simp only [digitsVal]
      rw [takeWhile_of_all _ _ hdig]
      simp

lemma jsParseInt_pad3 (m : Nat) :
    jsParseInt (pad3 ((m : Nat) : Int)) = some ((m : Nat) : Int) := by
  obtain ⟨hdig, hne, hval⟩ := toDigits_spec m
  have hts : toString ((m : Nat) : Int) = String.mk (Nat.toDigits 10 m) := rfl
  simp only [pad3, hts]
  by_cases hlen : (String.mk (Nat.toDigits 10 m)).length < 3
  · rw [if_pos hlen]
    have happ : String.mk
          (List.replicate (3 - (String.mk (Nat.toDigits 10 m)).length) '0') ++
          String.mk (Nat.toDigits 10 m) =
        String.mk
          (List.replicate (3 - (String.mk (Nat.toDigits 10 m)).length) '0' ++
            Nat.toDigits 10 m) := rfl
    rw [happ]
    rw [jsParseInt_all_digits _
      (by simp [hne])
      (by
        intro ch hch
        rcases List.mem_append.mp hch with hm1 | hm1
        · rw [List.eq_of_mem_replicate hm1]; decide
        · exact hdig ch hm1)]
    rw [List.foldl_append, foldDec_replicate_zero, hval]
  · rw [if_neg hlen]
    rw [jsParseInt_all_digits _ hne hdig, hval]

lemma jsParseInt_nextNumber (s : List Ticket) :
    jsParseInt (nextNumber s) = some (maxNumVal s + 1) := by
  have hcast : ((((maxNumVal s).toNat + 1 : Nat)) : Int) = maxNumVal s + 1 := by
    push_cast
    rw [Int.toNat_of_nonneg (maxNumVal_nonneg s)]
  have hnn : nextNumber s = pad3 ((((maxNumVal s).toNat + 1 : Nat)) : Int) := by
    rw [nextNumber, hcast]
  rw [hnn, jsParseInt_pad3, hcast]

end QueueSystem

namespace QueueSystem

lemma numInv_map {s : List Ticket} (f : Ticket → Ticket)
    (hfnum : ∀ t, (f t).number = t.number)
    (h1 : ∀ t ∈ s, ∃ n : Nat, 1 ≤ n ∧ jsParseInt t.number = some (n : Int))
    (h2 : s.Pairwise numLt) :
    (∀ t ∈ s.map f,
        ∃ n : Nat, 1 ≤ n ∧ jsParseInt t.number = some (n : Int)) ∧
      (s.map f).Pairwise numLt := by
  constructor
  · intro t ht
    obtain ⟨u, hu, rfl⟩ := List.mem_map.mp ht
    obtain ⟨n, hn, hp⟩ := h1 u hu
    exact ⟨n, hn, by rw [hfnum u]; exact hp⟩
  · refine List.Pairwise.map f ?_ h2
    intro a b hab nx ny hpx hpy
    rw [hfnum a] at hpx
    rw [hfnum b] at hpy
    exact hab nx ny hpx hpy

lemma guard_num_preserved (K : Nat) (g : Ticket → Ticket)
    (hg : ∀ t, (g t).number = t.number) :
    ∀ t, ((fun t => if t.id = K then g t else t) t).number = t.number := by
  intro t
  by_cases hc : t.id = K <;> simp [hc, hg t]

lemma numInv_createTicket (n d : String) (p : Priority) (e : Option ℚ)
    (i : Nat) (now : Int) (s : List Ticket)
    (h1 : ∀ t ∈ s, ∃ n0 : Nat, 1 ≤ n0 ∧ jsParseInt t.number = some (n0 : Int))
    (h2 : s.Pairwise numLt) :
    (∀ t ∈ createTicket n d p e i now s,
        ∃ n0 : Nat, 1 ≤ n0 ∧ jsParseInt t.number = some (n0 : Int)) ∧
      (createTicket n d p e i now s).Pairwise numLt := by
  by_cases hg : jsTrim n = "" ∨ jsTrim d = ""
  · have hid : createTicket n d p e i now s = s := by
      simp only [createTicket]
      rw [if_pos hg]
    rw [hid]
    exact ⟨h1, h2⟩
  · have hct : createTicket n d p e i now s = s ++
        [{ id := i, number := nextNumber s, name := jsTrim n,
           desc := jsTrim d, priority := p, etaMinutes := normEta e,
           status := Status.waiting, createdAt := now, startedAt := none,
           doneAt := none, result := none }] := by
      simp only [createTicket]
      rw [if_neg hg]
    rw [hct]
    have hcast : ((((maxNumVal s).toNat + 1 : Nat)) : Int) =
        maxNumVal s + 1 := by
      push_cast
      rw [Int.toNat_of_nonneg (maxNumVal_nonneg s)]
    constructor
    · intro t ht
      rcases List.mem_append.mp ht with hm | hm
      · exact h1 t hm
      · simp only [List.mem_singleton] at hm
        refine ⟨(maxNumVal s).toNat + 1, by omega, ?_⟩
        rw [hm, hcast]
        exact jsParseInt_nextNumber s
    · rw [List.pairwise_append]
      refine ⟨h2, by simp, ?_⟩
      intro a ha b hb
      simp only [List.mem_singleton] at hb
      rw [hb]
      intro nx ny hpx hpy
      have hny : ny = maxNumVal s + 1 := by
        have := jsParseInt_nextNumber s
        rw [this] at hpy
        exact (Option.some.inj hpy).symm
      have hnx : nx ≤ maxNumVal s := maxNumVal_ge ha hpx
      omega

lemma numInv_callNext (now : Int) (s : List Ticket)
    (h1 : ∀ t ∈ s, ∃ n : Nat, 1 ≤ n ∧ jsParseInt t.number = some (n : Int))
    (h2 : s.Pairwise numLt) :
    (∀ t ∈ callNext now s,
        ∃ n : Nat, 1 ≤ n ∧ jsParseInt t.number = some (n : Int)) ∧
      (callNext now s).Pairwise numLt := by
  rw [callNext]
  cases hip : inProgressOf s with
  | some ip => exact ⟨h1, h2⟩
  | none =>
    cases hw : sortWaitingQueue s with
    | nil => exact ⟨h1, h2⟩
    | cons next rest =>
      exact numInv_map _
        (guard_num_preserved next.id _ (fun t => rfl)) h1 h2

lemma numInv_markDone (draft : String) (now : Int) (s : List Ticket)
    (h1 : ∀ t ∈ s, ∃ n : Nat, 1 ≤ n ∧ jsParseInt t.number = some (n : Int))
    (h2 : s.Pairwise numLt) :
    (∀ t ∈ markDone draft now s,
        ∃ n : Nat, 1 ≤ n ∧ jsParseInt t.number = some (n : Int)) ∧
      (markDone draft now s).Pairwise numLt := by
  rw [markDone]
  cases hip : inProgressOf s with
  | none => exact ⟨h1, h2⟩
  | some ip =>
    exact numInv_map _ (guard_num_preserved ip.id _ (fun t => rfl)) h1 h2

lemma numInv_markSkipped (s : List Ticket)
    (h1 : ∀ t ∈ s, ∃ n : Nat, 1 ≤ n ∧ jsParseInt t.number = some (n : Int))
    (h2 : s.Pairwise numLt) :
    (∀ t ∈ markSkipped s,
        ∃ n : Nat, 1 ≤ n ∧ jsParseInt t.number = some (n : Int)) ∧
      (markSkipped s).Pairwise numLt := by
  rw [markSkipped]
  cases hip : inProgressOf s with
  | none => exact ⟨h1, h2⟩
  | some ip =>
    exact numInv_map _ (guard_num_preserved ip.id _ (fun t => rfl)) h1 h2

lemma numInv_bumpPriority (k : Nat) (s : List Ticket)
    (h1 : ∀ t ∈ s, ∃ n : Nat, 1 ≤ n ∧ jsParseInt t.number = some (n : Int))
    (h2 : s.Pairwise numLt) :
    (∀ t ∈ bumpPriority k s,
        ∃ n : Nat, 1 ≤ n ∧ jsParseInt t.number = some (n : Int)) ∧
      (bumpPriority k s).Pairwise numLt := by
  rw [bumpPriority_eq_guard]
  exact numInv_map _ (guard_num_preserved k _ (fun t => rfl)) h1 h2

lemma numInv_stepNoReset {s s' : List Ticket} (hstep : StepNoReset s s')
    (h1 : ∀ t ∈ s, ∃ n : Nat, 1 ≤ n ∧ jsParseInt t.number = some (n : Int))
    (h2 : s.Pairwise numLt) :
    (∀ t ∈ s', ∃ n : Nat, 1 ≤ n ∧ jsParseInt t.number = some (n : Int)) ∧
      s'.Pairwise numLt := by
  cases hstep with
  | createOp n d p e i now s hfresh => exact numInv_createTicket n d p e i now s h1 h2
  | callNextOp now s => exact numInv_callNext now s h1 h2
  | completeOp draft now s => exact numInv_markDone draft now s h1 h2
  | skipOp s => exact numInv_markSkipped s h1 h2
  | bumpOp k s => exact numInv_bumpPriority k s h1 h2

/-- C5 (amended): in any history with no intervening reset, every ticket
number parses to a value ≥ 1 and the values are strictly increasing along
the store (which lists tickets in creation order), so numbers are unique
and never reused as long as no reset occurs.  After a reset the sequence
restarts from the empty store (see the counterexample), so values are
reused across resets. -/
theorem C5_numbers_strictly_increase_without_reset (s : List Ticket)
    (h : ReachableNoReset s) :
    (∀ t ∈ s, ∃ n : Nat, 1 ≤ n ∧ jsParseInt t.number = some (n : Int)) ∧
      s.Pairwise numLt := by
  induction h with
  | nil => exact ⟨by simp, by simp⟩
  | step _ hstep ih => exact numInv_stepNoReset hstep ih.1 ih.2

/-- Closed instance of C5 (amended) after two creates with no reset. -/
theorem C5_numbers_strictly_increase_witness :
    (∀ t ∈ createTicket "c" "d" Priority.medium none 1 200
        (createTicket "a" "b" Priority.medium none 0 100 []),
        ∃ n : Nat, 1 ≤ n ∧ jsParseInt t.number = some (n : Int)) ∧
      (createTicket "c" "d" Priority.medium none 1 200
        (createTicket "a" "b" Priority.medium none 0 100 [])).Pairwise
        numLt :=
  C5_numbers_strictly_increase_without_reset _
    (ReachableNoReset.step
      (ReachableNoReset.step ReachableNoReset.nil
        (StepNoReset.createOp "a" "b" Priority.medium none 0 100 []
          (by simp)))
      (StepNoReset.createOp "c" "d" Priority.medium none 1 200 _
        (by with_unfolding_all decide)))

/-- C5 as stated is false: a reset empties the store and numbering restarts
at "001", so the number value 1 assigned to the first ticket is reused by
a ticket created after the reset. -/
theorem C5_counterexample :
    (createTicket "a" "b" Priority.medium none 0 100 []).map Ticket.number =
        ["001"] ∧
      (createTicket "c" "d" Priority.medium none 1 300
        (resetAll
          (createTicket "a" "b" Priority.medium none 0 100 []))).map
        Ticket.number = ["001"] := by
  with_unfolding_all decide

end QueueSystem
